import Mathlib

/-!
Shallow embedding of `tensorez/util.py` (image ingestion, Bayer color
correction, and center-of-mass alignment) together with proofs about the
claims of the specification.

Modelling conventions:
* a spatial image plane is a function `ℕ → ℕ → ℚ` (value at row, column),
  with its height and width carried separately; raw integer mosaics are
  `ℕ → ℕ → ℤ`.  All claims only observe pixels inside the declared bounds.
* float32 arithmetic is modelled by exact rational arithmetic; the
  float→int32 cast `tf.cast(·, tf.int32)` truncates toward zero and is
  modelled by `truncQ`; division by zero in `ℚ` returns `0`, standing in
  for the unguarded `inf`/`nan`-producing division of the code.
* `tf.bitwise.bitwise_and` on `int32` is two's-complement bitwise and,
  modelled by `Int.land` (the operands in the code fit in 32 bits).
-/

namespace TensorezUtil

/-- Image plane with rational (float-modelled) pixel values, indexed row then column. -/
abbrev Img : Type := ℕ → ℕ → ℚ

/-- Image plane with integer pixel values (raw sensor mosaic, undecoded bytes). -/
abbrev ImgZ : Type := ℕ → ℕ → ℤ

/-- Embedding of `crop_image` (util.py lines 28-36): for a spatial shape
`H × W`, compute the centered, alignment-snapped crop offset and slice
`[y : y + height, x : x + width]`.  `crop = some (width, height)`; with
`crop = none` the image passes through unchanged.  The claims only use
`width ≤ W`, `height ≤ H` and positive alignment (Python raises
`ZeroDivisionError` on a zero `crop_align`). -/
def crop_image {α : Type} (H W : ℕ) (img : ℕ → ℕ → α) (crop : Option (ℕ × ℕ))
    (crop_align : ℕ) : ℕ → ℕ → α :=
  match crop with
  | none => img
  | some (width, height) =>
    fun i j =>
      img ((H - height) / 2 / crop_align * crop_align + i)
          ((W - width) / 2 / crop_align * crop_align + j)

/-- Spatial shape of the result of `crop_image`: unchanged without a crop,
otherwise `height × width` of the requested crop. -/
def crop_dims (H W : ℕ) (crop : Option (ℕ × ℕ)) : ℕ × ℕ :=
  match crop with
  | none => (H, W)
  | some (width, height) => (height, width)

/-- Embedding of `tf.tile` of a `2 × 2` tile with multiples `(H/2, W/2)`
(util.py lines 83-84): the tiled array repeats the tile, so entry `(i, j)`
is the tile entry `(i mod 2, j mod 2)`. -/
def tile_two {α : Type} (t : Fin 2 → Fin 2 → α) : ℕ → ℕ → α :=
  fun i j => t ⟨i % 2, Nat.mod_lt i (by norm_num)⟩ ⟨j % 2, Nat.mod_lt j (by norm_num)⟩

/-- Row-major `tf.reshape` from a 2-D array of row width `w₁` to one of row
width `w₂`: entry `(r, c)` of the result is the entry of the source at the
same flat (row-major) position `r * w₂ + c`. -/
def reshape_row_major {α : Type} (w₁ w₂ : ℕ) (src : ℕ → ℕ → α) : ℕ → ℕ → α :=
  fun r c => src ((r * w₂ + c) / w₁) ((r * w₂ + c) % w₁)

/-- Embedding of the color-balance block of `read_image` (util.py lines
70-86): the `2 × 2` scale tile is divided by `16383.0`, both tiles are
tiled with multiples `(H/2, W/2)` and reshaped (row-major) to the image
shape `H × W` (tile row width `2 * (W / 2)`), and the image is corrected
as `(image - black) * scale`.  `H` enters only through the tile row count,
which the row-major index arithmetic does not consult. -/
def color_balance_stage (H W : ℕ) (scaleTile blackTile : Fin 2 → Fin 2 → ℚ)
    (img : Img) : Img :=
  let scale := reshape_row_major (2 * (W / 2)) W (tile_two (fun i j => scaleTile i j / 16383))
  let black := reshape_row_major (2 * (W / 2)) W (tile_two blackTile)
  fun r c => (img r c - black r c) * scale r c

/-- Reference formula of the specification for the color-correction stage:
each pixel at raw coordinate `(r, c)` becomes
`(value - black[r % 2, c % 2]) * scale[r % 2, c % 2]`, where `scale` is the
white-balance tile divided by `16383.0`. -/
def color_balance_ref (scaleTile blackTile : Fin 2 → Fin 2 → ℚ) (img : Img) : Img :=
  fun r c =>
    (img r c - blackTile ⟨r % 2, Nat.mod_lt r (by norm_num)⟩ ⟨c % 2, Nat.mod_lt c (by norm_num)⟩) *
      (scaleTile ⟨r % 2, Nat.mod_lt r (by norm_num)⟩ ⟨c % 2, Nat.mod_lt c (by norm_num)⟩ / 16383)

/-- C4: for every crop request `width ≤ W`, `height ≤ H` and positive
alignment `A`, `crop_image` slices `[y : y + height, x : x + width]` with
`x = ((W - width)/2/A)*A`, `y = ((H - height)/2/A)*A`, and the crop origin
is a multiple of `A` in both coordinates. -/
theorem crop_image_slice_and_alignment {α : Type} (H W width height A : ℕ)
    (img : ℕ → ℕ → α) (hw : width ≤ W) (hh : height ≤ H) (hA : 0 < A) :
    (∀ i j, i < height → j < width →
      crop_image H W img (some (width, height)) A i j =
        img ((H - height) / 2 / A * A + i) ((W - width) / 2 / A * A + j)) ∧
    A ∣ (W - width) / 2 / A * A ∧ A ∣ (H - height) / 2 / A * A := by
  exact ⟨fun i j _ _ => rfl, dvd_mul_left A _, dvd_mul_left A _⟩

/-- Witness for C4 at a concrete instance: a `4 × 4` image, a centered
`2 × 2` crop with alignment `2`; the crop origin is `(0, 0)` (offset
`(4-2)/2 = 1` snapped down to the multiple `0` of `2`). -/
theorem crop_image_slice_and_alignment_witness :
    (2 ≤ 4 ∧ 0 < 2) ∧
    ((∀ i j, i < 2 → j < 2 →
      crop_image 4 4 (fun r c => (10 * r + c : ℤ)) (some (2, 2)) 2 i j =
        (fun r c => (10 * r + c : ℤ)) ((4 - 2) / 2 / 2 * 2 + i) ((4 - 2) / 2 / 2 * 2 + j)) ∧
      2 ∣ (4 - 2) / 2 / 2 * 2 ∧ 2 ∣ (4 - 2) / 2 / 2 * 2) := by
  refine ⟨⟨by norm_num, by norm_num⟩, ?_⟩
  exact crop_image_slice_and_alignment 4 4 2 2 2 (fun r c => (10 * r + c : ℤ))
    (by norm_num) (by norm_num) (by norm_num)

/-- C1: on an even-dimensioned mosaic image, the tile-and-reshape
implementation of the color-correction stage agrees at every in-bounds
pixel with the per-pixel reference formula
`(value - black[r % 2, c % 2]) * scale[r % 2, c % 2]`. -/
theorem color_balance_tiling_matches_per_pixel (H W : ℕ) (hH : 2 ∣ H) (hW : 2 ∣ W)
    (scaleTile blackTile : Fin 2 → Fin 2 → ℚ) (img : Img) (r c : ℕ)
    (hr : r < H) (hc : c < W) :
    color_balance_stage H W scaleTile blackTile img r c =
      color_balance_ref scaleTile blackTile img r c := by
  have hW0 : 0 < W := lt_of_le_of_lt (Nat.zero_le c) hc
  have hW2 : 2 * (W / 2) = W := Nat.mul_div_cancel' hW
  have hdiv : (r * W + c) / W = r := by
    rw [Nat.mul_comm r W, Nat.mul_add_div hW0, Nat.div_eq_of_lt hc, Nat.add_zero]
  have hmod : (r * W + c) % W = c := by
    rw [Nat.mul_comm r W, Nat.mul_add_mod, Nat.mod_eq_of_lt hc]
  simp only [color_balance_stage, color_balance_ref, reshape_row_major, tile_two,
    hW2, hdiv, hmod]

/-- Witness for C1 at a concrete instance: `H = W = 2`, distinct tile
entries, pixel `(1, 1)`. -/
theorem color_balance_tiling_matches_per_pixel_witness :
    ((2 : ℕ) ∣ 2 ∧ (1 : ℕ) < 2) ∧
    color_balance_stage 2 2 (fun i j => (i : ℚ) + 2 * (j : ℚ) + 1)
        (fun i j => (i : ℚ) - (j : ℚ)) (fun r c => (r : ℚ) * 7 + (c : ℚ)) 1 1 =
      color_balance_ref (fun i j => (i : ℚ) + 2 * (j : ℚ) + 1)
        (fun i j => (i : ℚ) - (j : ℚ)) (fun r c => (r : ℚ) * 7 + (c : ℚ)) 1 1 := by
  refine ⟨⟨⟨1, rfl⟩, by norm_num⟩, ?_⟩
  exact color_balance_tiling_matches_per_pixel 2 2 ⟨1, rfl⟩ ⟨1, rfl⟩ _ _ _ 1 1
    (by norm_num) (by norm_num)

/-- Embedding of `tf.linspace(-S/2.0, S/2.0, S)` used by `center_of_mass`
(util.py line 147): entry `k` of the ramp of length `S` is
`-S/2 + k * (S / (S - 1))`.  For `S = 1` TensorFlow returns the start
point `-1/2`; here the step's division by zero returns `0`, which gives
the same value. -/
def multiplier (S k : ℕ) : ℚ :=
  -(S : ℚ) / 2 + (k : ℚ) * ((S : ℚ) / ((S : ℚ) - 1))

/-- Total intensity mass of an `H × W` plane (util.py line 139).  The
claims use single-channel images, on which the `collapse_channels`
channel-sum of the code is the identity. -/
def total_mass (H W : ℕ) (img : Img) : ℚ :=
  ∑ r ∈ Finset.range H, ∑ c ∈ Finset.range W, img r c

/-- Embedding of `center_of_mass` (util.py lines 125-169) on a
single-channel `H × W` plane.  The loop visits axis `-2` (width) first and
axis `-3` (height) second, so the returned pair is (width component,
height component); each component is the ramp-weighted moment divided by
`total_mass`, with no guard against a zero denominator. -/
def center_of_mass (H W : ℕ) (img : Img) : ℚ × ℚ :=
  ((∑ r ∈ Finset.range H, ∑ c ∈ Finset.range W, img r c * multiplier W c) / total_mass H W img,
   (∑ r ∈ Finset.range H, ∑ c ∈ Finset.range W, img r c * multiplier H r) / total_mass H W img)

/-- Embedding of `tf.cast(·, tf.int32)` on a float scalar: truncation
toward zero. -/
def truncQ (q : ℚ) : ℤ :=
  if q < 0 then ⌈q⌉ else ⌊q⌋

/-- Embedding of `tf.bitwise.bitwise_and(shift, -2)` (util.py line 189):
two's-complement bitwise and with `-2`. -/
def force_even (s : ℤ) : ℤ :=
  Int.land s (-2)

/-- Embedding of `pad_image` (util.py lines 171-175): zero-fill `pad`
pixels on each spatial side (the code skips the op entirely when
`pad == 0`). -/
def pad_image (H W : ℕ) (p : ℕ) (img : Img) : Img :=
  if p = 0 then img
  else fun r c =>
    if p ≤ r ∧ r < p + H ∧ p ≤ c ∧ c < p + W then img (r - p) (c - p) else 0

/-- Shift vector that `center_image` (util.py lines 177-193) passes to
`tf.roll`: the center of mass truncated to `int32`, optionally forced even
by `bitwise_and` with `-2`, then negated.  Component `.1` is the width
(axis `-2`) shift and `.2` the height (axis `-3`) shift. -/
def com_shift (H W : ℕ) (img : Img) (only_even : Bool) : ℤ × ℤ :=
  let com := center_of_mass H W img
  let s : ℤ × ℤ := (truncQ com.1, truncQ com.2)
  let t : ℤ × ℤ := if only_even then (force_even s.1, force_even s.2) else s
  (-t.1, -t.2)

/-- Source index of `tf.roll` along one axis of size `n` with shift `s`:
the output at index `i` is the input at index `(i - s) mod n`. -/
def roll_idx (i : ℕ) (s : ℤ) (n : ℕ) : ℕ :=
  (((i : ℤ) - s) % (n : ℤ)).toNat

/-- Embedding of `center_image` (util.py lines 177-195): pad, compute the
integer shift from the center of mass, and cyclically roll the padded
image by that shift along both spatial axes. -/
def center_image (H W : ℕ) (img : Img) (p : ℕ) (only_even : Bool) : Img :=
  fun r c =>
    pad_image H W p img
      (roll_idx r (com_shift (H + 2 * p) (W + 2 * p) (pad_image H W p img) only_even).2 (H + 2 * p))
      (roll_idx c (com_shift (H + 2 * p) (W + 2 * p) (pad_image H W p img) only_even).1 (W + 2 * p))

/-- Multi-channel image plane: row, column, channel. -/
abbrev ImgC : Type := ℕ → ℕ → ℕ → ℚ

/-- Embedding of `center_image_per_channel` (util.py lines 198-199): the
channels are unstacked, centered independently, and restacked.  The Python
function binds `pad` as an explicit parameter but forwards only `**kwargs`
to `center_image`, so `center_image` always runs with its default
`pad = 0` and the bound `p` is dead. -/
def center_image_per_channel (H W : ℕ) (img : ImgC) (p : ℕ) (only_even : Bool) : ImgC :=
  fun r c ch => center_image H W (fun r' c' => img r' c' ch) 0 only_even r c

/-- Nearest even integer toward zero, the rounding that the specification
text ascribes to the `only_even_shifts` forcing. -/
def even_toward_zero (s : ℤ) : ℤ :=
  if s < 0 then -(2 * (-s / 2)) else 2 * (s / 2)

/-- Clearing the lowest bit of a natural number yields its even floor. -/
theorem nat_ldiff_one (m : ℕ) : Nat.ldiff m 1 = 2 * (m / 2) := by
  apply Nat.eq_of_testBit_eq
  intro i
  cases i with
  | zero =>
    rw [Nat.testBit_ldiff]
    simp only [Nat.testBit_zero]
    have h2 : 2 * (m / 2) % 2 = 0 := by omega
    simp [h2]
  | succ i =>
    have h1 : Nat.testBit 1 (i + 1) = false := by
      rw [Nat.testBit_add_one]
      simp
    have h2 : 2 * (m / 2) / 2 = m / 2 := by omega
    rw [Nat.testBit_ldiff, h1, Nat.testBit_add_one, Nat.testBit_add_one, h2]
    simp

/-- Setting the lowest bit of a natural number yields its even floor plus one. -/
theorem nat_lor_one (m : ℕ) : m ||| 1 = 2 * (m / 2) + 1 := by
  apply Nat.eq_of_testBit_eq
  intro i
  cases i with
  | zero =>
    rw [Nat.testBit_lor]
    simp only [Nat.testBit_zero]
    have h2 : (2 * (m / 2) + 1) % 2 = 1 := by omega
    simp [h2]
  | succ i =>
    have h1 : Nat.testBit 1 (i + 1) = false := by
      rw [Nat.testBit_add_one]
      simp
    have h2 : (2 * (m / 2) + 1) / 2 = m / 2 := by omega
    rw [Nat.testBit_lor, h1, Nat.testBit_add_one, Nat.testBit_add_one, h2]
    simp

/-- Bitwise and with `-2` in two's complement is the even floor
(rounding toward negative infinity), i.e. it subtracts the parity bit. -/
theorem force_even_eq_even_floor (s : ℤ) : force_even s = s - s % 2 := by
  unfold force_even
  cases s with
  | ofNat m =>
    show ((Nat.ldiff m 1 : ℕ) : ℤ) = Int.ofNat m - Int.ofNat m % 2
    rw [nat_ldiff_one m]
    simp only [Int.ofNat_eq_natCast]
    omega
  | negSucc m =>
    show Int.negSucc (m ||| 1) = Int.negSucc m - Int.negSucc m % 2
    rw [nat_lor_one m, Int.negSucc_eq, Int.negSucc_eq]
    omega

/-- Negating the even-forced shift always yields an even integer. -/
theorem even_neg_force_even (s : ℤ) : Even (-force_even s) := by
  rw [force_even_eq_even_floor, even_neg, Int.even_iff]
  omega

/-- C7: with `only_even_shifts = True`, both components of the shift
vector that `center_image` passes to `tf.roll` (computed on the padded
image) are even, for every image and every padding. -/
theorem only_even_shifts_always_even (H W p : ℕ) (img : Img) :
    Even ((com_shift (H + 2 * p) (W + 2 * p) (pad_image H W p img) true).1) ∧
    Even ((com_shift (H + 2 * p) (W + 2 * p) (pad_image H W p img) true).2) := by
  unfold com_shift
  simp only [if_true]
  exact ⟨even_neg_force_even _, even_neg_force_even _⟩

/-- C9: `center_image_per_channel` never applies its `pad` argument: the
result for any `pad` equals the result for `pad = 0` (and in particular
the `pad = 0` run of `center_image` adds no zero-fill padding, so the
spatial extent of the data is unchanged). -/
theorem center_image_per_channel_ignores_pad (H W : ℕ) (img : ImgC) (p : ℕ)
    (only_even : Bool) :
    center_image_per_channel H W img p only_even =
      center_image_per_channel H W img 0 only_even := rfl

/-- C2 amended: the even forcing applied with `only_even_shifts = True` is
the even floor (rounding toward negative infinity, clearing the low
two's-complement bit), not rounding toward zero: the shift passed to the
roll is the negation of `truncated - truncated % 2` in each component. -/
theorem even_forcing_is_even_floor (H W : ℕ) (img : Img) :
    com_shift H W img true =
      (-(truncQ (center_of_mass H W img).1 - truncQ (center_of_mass H W img).1 % 2),
       -(truncQ (center_of_mass H W img).2 - truncQ (center_of_mass H W img).2 % 2)) := by
  unfold com_shift
  simp only [if_true]
  rw [force_even_eq_even_floor, force_even_eq_even_floor]

/-- Image whose width centroid truncates to the negative odd integer `-1`:
mass 5 at column 0 (ramp value `-2`) and mass 3 at column 1 (ramp value
`-2/3`) give a width centroid of `-3/2`. -/
def img_c2 : Img :=
  fun r c => if r = 0 ∧ c = 0 then 5 else if r = 0 ∧ c = 1 then 3 else 0

/-- Width centroid of `img_c2` on a `4 × 4` grid. -/
theorem img_c2_com : (center_of_mass 4 4 img_c2).1 = -3 / 2 := by
  unfold center_of_mass total_mass img_c2 multiplier
  simp only [Finset.sum_range_succ, Finset.sum_range_zero]
  norm_num

/-- C2 counterexample: on `img_c2` the truncated width centroid offset is
`-1`, and the bitwise-and forcing of the code sends it to `-2`, which is
not the nearest even integer toward zero (that would be `0`). -/
theorem even_forcing_not_toward_zero_cex :
    force_even (truncQ (center_of_mass 4 4 img_c2).1) ≠
      even_toward_zero (truncQ (center_of_mass 4 4 img_c2).1) := by
  have htr : truncQ (center_of_mass 4 4 img_c2).1 = -1 := by
    rw [img_c2_com]
    unfold truncQ
    rw [if_pos (by norm_num), Int.ceil_eq_iff]
    norm_num
  rw [htr, force_even_eq_even_floor]
  unfold even_toward_zero
  norm_num

/-- Rolling by a zero shift is the identity on in-range indices. -/
theorem roll_idx_zero (i n : ℕ) (h : i < n) : roll_idx i 0 n = i := by
  unfold roll_idx
  rw [sub_zero, Int.emod_eq_of_lt (by omega) (by omega)]
  omega

/-- Centering with `pad = 0` is the identity on in-range pixels whenever
both centroid components truncate to a zero integer shift. -/
theorem center_image_zero_shift (H W : ℕ) (img : Img)
    (h1 : truncQ (center_of_mass H W img).1 = 0)
    (h2 : truncQ (center_of_mass H W img).2 = 0)
    (r c : ℕ) (hr : r < H) (hc : c < W) :
    center_image H W img 0 false r c = img r c := by
  have hp : pad_image H W 0 img = img := by
    unfold pad_image
    simp
  have hs : com_shift H W img false = (0, 0) := by
    unfold com_shift
    simp [h1, h2]
  unfold center_image
  simp only [Nat.mul_zero, Nat.add_zero, hp, hs]
  rw [roll_idx_zero r H hr, roll_idx_zero c W hc]

/-- C8: on an image whose center-of-mass offset truncates to the zero
integer shift in both spatial dimensions, `center_image` with `pad = 0`
computes a zero shift and returns every in-range pixel unchanged, so
centering such an already-centered image is the identity (idempotence). -/
theorem center_image_identity_on_centered (H W : ℕ) (img : Img)
    (h1 : truncQ (center_of_mass H W img).1 = 0)
    (h2 : truncQ (center_of_mass H W img).2 = 0)
    (r c : ℕ) (hr : r < H) (hc : c < W) :
    center_image H W img 0 false r c = img r c :=
  center_image_zero_shift H W img h1 h2 r c hr hc

/-- Witness for C8: the uniform all-ones `2 × 2` image is symmetric, its
centroid is `(0, 0)`, and centering leaves pixel `(1, 0)` unchanged. -/
theorem center_image_identity_on_centered_witness :
    truncQ (center_of_mass 2 2 (fun _ _ => (1 : ℚ))).1 = 0 ∧
    truncQ (center_of_mass 2 2 (fun _ _ => (1 : ℚ))).2 = 0 ∧
    center_image 2 2 (fun _ _ => (1 : ℚ)) 0 false 1 0 = 1 := by
  have h1 : truncQ (center_of_mass 2 2 (fun _ _ => (1 : ℚ))).1 = 0 := by
    unfold center_of_mass total_mass truncQ multiplier
    simp only [Finset.sum_range_succ, Finset.sum_range_zero]
    norm_num
  have h2 : truncQ (center_of_mass 2 2 (fun _ _ => (1 : ℚ))).2 = 0 := by
    unfold center_of_mass total_mass truncQ multiplier
    simp only [Finset.sum_range_succ, Finset.sum_range_zero]
    norm_num
  exact ⟨h1, h2,
    center_image_identity_on_centered 2 2 (fun _ _ => (1 : ℚ)) h1 h2 1 0
      (by norm_num) (by norm_num)⟩

/-- C6: on an image of zero total mass, `center_of_mass` performs its
division with a zero denominator and returns the degenerate centroid
(modelled by the `ℚ` convention `x / 0 = 0`; the float code propagates
`nan`/`inf`), and `center_image` likewise completes without any error,
returning the in-range pixels unchanged: there is no guard and no
`DegenerateCentroid`-style failure path in either function. -/
theorem zero_mass_centroid_degenerate_no_error (H W : ℕ) (img : Img)
    (h : total_mass H W img = 0) :
    center_of_mass H W img = (0, 0) ∧
    ∀ r c, r < H → c < W → center_image H W img 0 false r c = img r c := by
  have hcom : center_of_mass H W img = (0, 0) := by
    unfold center_of_mass
    rw [h]
    simp
  have htr1 : truncQ (center_of_mass H W img).1 = 0 := by
    rw [hcom]
    unfold truncQ
    norm_num
  have htr2 : truncQ (center_of_mass H W img).2 = 0 := by
    rw [hcom]
    unfold truncQ
    norm_num
  exact ⟨hcom, fun r c hr hc => center_image_zero_shift H W img htr1 htr2 r c hr hc⟩

/-- Image with cancelling masses `1` and `-1`: nonzero pixels but zero
total mass. -/
def img_c6 : Img :=
  fun r c => if r = 0 ∧ c = 0 then 1 else if r = 0 ∧ c = 1 then -1 else 0

/-- Witness for C6: `img_c6` has zero total mass on a `2 × 2` grid, the
division by zero yields the degenerate centroid `(0, 0)`, and centering
returns pixel `(0, 1)` (value `-1`) unchanged. -/
theorem zero_mass_centroid_degenerate_no_error_witness :
    total_mass 2 2 img_c6 = 0 ∧
    center_of_mass 2 2 img_c6 = (0, 0) ∧
    center_image 2 2 img_c6 0 false 0 1 = -1 := by
  have h : total_mass 2 2 img_c6 = 0 := by
    unfold total_mass img_c6
    simp only [Finset.sum_range_succ, Finset.sum_range_zero]
    norm_num
  have h2 := zero_mass_centroid_degenerate_no_error 2 2 img_c6 h
  refine ⟨h, h2.1, ?_⟩
  have h3 := h2.2 0 1 (by norm_num) (by norm_num)
  rw [h3]
  unfold img_c6
  norm_num

/-- Single bright pixel of value `v` at position `(0, 0)`, all other
pixels zero. -/
def pix0 (v : ℚ) : Img :=
  fun r c => if r = 0 ∧ c = 0 then v else 0

/-- Center of mass of the single-pixel image on a `4 × 4` grid: the ramp
value at index 0 is `-2` in both dimensions, and the mass cancels. -/
theorem pix0_com (v : ℚ) (hv : v ≠ 0) : center_of_mass 4 4 (pix0 v) = (-2, -2) := by
  unfold center_of_mass total_mass pix0 multiplier
  simp only [Finset.sum_range_succ, Finset.sum_range_zero]
  norm_num
  rw [div_eq_iff hv]
  ring

/-- C5: a `4 × 4` image whose only nonzero (positive) pixel sits at
`(0, 0)`, centered with `pad = 0` and `only_even_shifts = False`, is
cyclically rolled by `(2, 2)`: the bright pixel lands exactly at the
geometric center `(2, 2)` and every other in-range pixel is zero. -/
theorem center_image_single_pixel_to_center (v : ℚ) (hv : 0 < v) (r c : ℕ)
    (hr : r < 4) (hc : c < 4) :
    center_image 4 4 (pix0 v) 0 false r c = if r = 2 ∧ c = 2 then v else 0 := by
  have hcom := pix0_com v (ne_of_gt hv)
  have htr : truncQ (-2 : ℚ) = -2 := by
    unfold truncQ
    rw [if_pos (by norm_num), Int.ceil_eq_iff]
    norm_num
  have hp : pad_image 4 4 0 (pix0 v) = pix0 v := by
    unfold pad_image
    simp
  have hs : com_shift 4 4 (pix0 v) false = (2, 2) := by
    unfold com_shift
    rw [hcom]
    simp [htr]
  have e0 : roll_idx 0 2 4 = 2 := by decide
  have e1 : roll_idx 1 2 4 = 3 := by decide
  have e2 : roll_idx 2 2 4 = 0 := by decide
  have e3 : roll_idx 3 2 4 = 1 := by decide
  unfold center_image
  simp only [Nat.mul_zero, Nat.add_zero, hp, hs]
  interval_cases r <;> interval_cases c <;> simp [e0, e1, e2, e3, pix0]

/-- Witness for C5 at `v = 1`: the bright pixel is found at `(2, 2)` after
centering. -/
theorem center_image_single_pixel_to_center_witness :
    (0 : ℚ) < 1 ∧ center_image 4 4 (pix0 1) 0 false 2 2 = 1 := by
  refine ⟨by norm_num, ?_⟩
  have h := center_image_single_pixel_to_center 1 (by norm_num) 2 2
    (by norm_num) (by norm_num)
  simpa using h

/-- Metadata and mosaic plane exposed by the external raw decoder
(`rawpy`): the visible sensor plane with its shape, the `2 × 2` Bayer
pattern as indices into the per-channel tables, the color descriptor
characters, per-channel black levels, and the daylight white-balance
coefficients. -/
structure RawFile : Type where
  height : ℕ
  width : ℕ
  raw_image_visible : ImgZ
  raw_pattern : Fin 2 → Fin 2 → Fin 4
  color_desc : Fin 4 → Char
  black_level_per_channel : Fin 4 → ℤ
  daylight_whitebalance : Fin 3 → ℚ

/-- Modelled from the spec: external collaborators of `read_image`.  The
PIL decoder (`Image.open` + `np.array`), the generic `tf.io.decode_image`
decoder (each returning an integer image with its shape), the `rawpy`
reader, the sRGB→linear transform of `tensorflow_graphics`, and
`apply_demosaic_filter` with `demosaic_kernels_rggb` from
`tensorez.bayer` (a module not present in the sources) are abstract
functions; the spec treats all of them as external primitives. -/
structure Codecs : Type where
  pil_decode : List Char → ℕ × ℕ × ImgZ
  tfio_decode : List Char → ℕ × ℕ × ImgZ
  rawpy_imread : List Char → RawFile
  linear_from_srgb : Img → Img
  apply_demosaic_rggb : Img → (ℕ → ℕ → Fin 3 → ℚ)

/-- Value returned by `read_image`, tagged by its dtype and channel
structure: an integer image (no `to_float`), a float single-channel
image, or a demosaiced float 3-channel image. -/
inductive ReadOut : Type where
  | intsOut (hw : ℕ × ℕ) (img : ImgZ) : ReadOut
  | floatOut (hw : ℕ × ℕ) (img : Img) : ReadOut
  | rgbOut (hw : ℕ × ℕ) (img : ℕ → ℕ → Fin 3 → ℚ) : ReadOut

/-- Embedding of `fnmatch.fnmatch(filename, pattern)` for the patterns
`*.tif`, `*.tiff`, `*.cr2` used by `read_image`: the filename matches
exactly when it ends with the literal suffix after the `*`. -/
def fnmatch_star (pat fn : List Char) : Bool :=
  decide (List.drop (fn.length - pat.length) fn = pat)

/-- Suffix of the pattern `*.tif`. -/
def ext_tif : List Char := ['.', 't', 'i', 'f']

/-- Suffix of the pattern `*.tiff`. -/
def ext_tiff : List Char := ['.', 't', 'i', 'f', 'f']

/-- Suffix of the pattern `*.cr2`. -/
def ext_cr2 : List Char := ['.', 'c', 'r', '2']

/-- White-balance `2 × 2` tile (util.py lines 72-75): daylight
white-balance coefficients laid out as `[[wb0, wb1], [wb1, wb2]]`. -/
def scale_tile (wb : Fin 3 → ℚ) : Fin 2 → Fin 2 → ℚ :=
  fun i j =>
    if i.val = 0 then (if j.val = 0 then wb 0 else wb 1)
    else (if j.val = 0 then wb 1 else wb 2)

/-- Black-level `2 × 2` tile (util.py lines 76-79): per-channel black
levels indexed through the raw Bayer pattern, widened to float. -/
def black_tile (bl : Fin 4 → ℤ) (pat : Fin 2 → Fin 2 → Fin 4) : Fin 2 → Fin 2 → ℚ :=
  fun i j => (bl (pat i j) : ℚ)

/-- Condition of the anomalous-Bayer-pattern warning (util.py lines
63-68): the color descriptor seen through the raw pattern is not the
canonical R/G/G/B layout. -/
def pattern_is_weird (raw : RawFile) : Bool :=
  (raw.color_desc (raw.raw_pattern 0 0) != 'R') ||
  (raw.color_desc (raw.raw_pattern 0 1) != 'G') ||
  (raw.color_desc (raw.raw_pattern 1 0) != 'G') ||
  (raw.color_desc (raw.raw_pattern 1 1) != 'B')

/-- Embedding of the `.cr2` branch of `read_image` (util.py lines 44-89):
copy the visible mosaic plane, crop it, and only when `to_float` is set:
cast to float, emit the anomalous-pattern warning if `color_balance` or
`demosaic` is requested on a non-RGGB layout, apply the color-balance
stage if `color_balance`, and the demosaic filter if `demosaic`.  The
second component of the result records whether the warning was printed. -/
def raw_path (env : Codecs) (filename : List Char) (to_float : Bool)
    (crop : Option (ℕ × ℕ)) (crop_align : ℕ) (color_balance demosaic : Bool) :
    ReadOut × Bool :=
  let raw := env.rawpy_imread filename
  let dims := crop_dims raw.height raw.width crop
  let mosaic := crop_image raw.height raw.width raw.raw_image_visible crop crop_align
  if to_float then
    let imgf : Img := fun r c => (mosaic r c : ℚ)
    let warned := (color_balance || demosaic) && pattern_is_weird raw
    let imgcb : Img :=
      if color_balance then
        color_balance_stage dims.1 dims.2 (scale_tile raw.daylight_whitebalance)
          (black_tile raw.black_level_per_channel raw.raw_pattern) imgf
      else imgf
    if demosaic then (ReadOut.rgbOut dims (env.apply_demosaic_rggb imgcb), warned)
    else (ReadOut.floatOut dims imgcb, warned)
  else (ReadOut.intsOut dims mosaic, false)

/-- Embedding of the final `else` branch of `read_image` (util.py lines
92-99): decode with `tf.io.decode_image`, crop, and when `to_float` is
set divide by `255` and optionally convert sRGB to linear. -/
def std_path (env : Codecs) (filename : List Char) (to_float srgb_to_linear : Bool)
    (crop : Option (ℕ × ℕ)) (crop_align : ℕ) : ReadOut × Bool :=
  let d := env.tfio_decode filename
  let dims := crop_dims d.1 d.2.1 crop
  let img := crop_image d.1 d.2.1 d.2.2 crop crop_align
  if to_float then
    let imgf : Img := fun r c => (img r c : ℚ) / 255
    (ReadOut.floatOut dims (if srgb_to_linear then env.linear_from_srgb imgf else imgf), false)
  else (ReadOut.intsOut dims img, false)

/-- Embedding of the `.tif`/`.tiff` branch of `read_image` (util.py lines
40-43): decode with PIL and crop. -/
def tif_path (env : Codecs) (filename : List Char) (crop : Option (ℕ × ℕ))
    (crop_align : ℕ) : ReadOut :=
  let d := env.pil_decode filename
  ReadOut.intsOut (crop_dims d.1 d.2.1 crop) (crop_image d.1 d.2.1 d.2.2 crop crop_align)

/-- Embedding of `read_image` (util.py lines 38-100).  The Python body is
a first `if` (tif/tiff, PIL decode) followed by a second `if`/`else`
(`.cr2` raw path, else generic decode path).  Because the second `if` has
an `else` arm and is not chained to the first with `elif`, the `else` arm
runs for every filename that is not a `.cr2` file and rebinds `image`:
the PIL result of the first branch (`pil_image` below) is dead, which is
why the returned value never comes from the tif branch. -/
def read_image (env : Codecs) (filename : List Char) (to_float srgb_to_linear : Bool)
    (crop : Option (ℕ × ℕ)) (crop_align : ℕ) (color_balance demosaic : Bool) :
    ReadOut × Bool :=
  let pil_image : Option ReadOut :=
    if fnmatch_star ext_tif filename || fnmatch_star ext_tiff filename then
      some (tif_path env filename crop crop_align)
    else none
  if fnmatch_star ext_cr2 filename then
    raw_path env filename to_float crop crop_align color_balance demosaic
  else
    std_path env filename to_float srgb_to_linear crop crop_align

/-- Concrete filename matching `*.tif`. -/
def name_a_tif : List Char := ['a', '.', 't', 'i', 'f']

/-- Raw-file metadata used by the concrete codec environment. -/
def raw0 : RawFile :=
  ⟨0, 0, fun _ _ => 0, fun _ _ => 0, fun _ => 'R', fun _ => 0, fun _ => 1⟩

/-- Concrete codec environment whose PIL decoder and generic decoder
return distinguishable images (`7` versus `9` everywhere). -/
def env0 : Codecs :=
  ⟨fun _ => (1, 1, fun _ _ => 7), fun _ => (1, 1, fun _ _ => 9),
   fun _ => raw0, id, fun _ _ _ _ => 0⟩

/-- C10: in the raw path, with `to_float = False`, `read_image` returns
the cropped integer mosaic plane and emits no warning, regardless of the
`color_balance` and `demosaic` flags: black-level subtraction,
white-balance scaling, demosaicing, and the anomalous-pattern warning are
all gated behind `to_float`. -/
theorem raw_path_int_mosaic_when_not_float (env : Codecs) (f : List Char)
    (crop : Option (ℕ × ℕ)) (ca : ℕ) (cb dm : Bool) :
    raw_path env f false crop ca cb dm =
      (ReadOut.intsOut (crop_dims (env.rawpy_imread f).height (env.rawpy_imread f).width crop)
        (crop_image (env.rawpy_imread f).height (env.rawpy_imread f).width
          (env.rawpy_imread f).raw_image_visible crop ca), false) := rfl

/-- C3 (code bug): for a `.tif` filename, `read_image` returns the result
of the generic `tf.io.decode_image` path, not the PIL tif branch: the
first conjunct shows the result always equals `std_path`, and the second
exhibits a codec environment in which the returned value differs from the
(discarded) PIL branch value. -/
theorem tif_branch_result_discarded :
    (∀ (env : Codecs) (tofl sl : Bool) (crop : Option (ℕ × ℕ)) (ca : ℕ) (cb dm : Bool),
      read_image env name_a_tif tofl sl crop ca cb dm =
        std_path env name_a_tif tofl sl crop ca) ∧
    read_image env0 name_a_tif false false none 2 true true ≠
      (tif_path env0 name_a_tif none 2, false) := by
  have hcr2 : fnmatch_star ext_cr2 name_a_tif = false := by decide
  constructor
  · intro env tofl sl crop ca cb dm
    unfold read_image
    rw [hcr2]
    simp
  · have hmain : read_image env0 name_a_tif false false none 2 true true =
        (ReadOut.intsOut (1, 1) (fun _ _ => (9 : ℤ)), false) := rfl
    have htif : tif_path env0 name_a_tif none 2 =
        ReadOut.intsOut (1, 1) (fun _ _ => (7 : ℤ)) := rfl
    rw [hmain, htif]
    intro h
    have h2 : ReadOut.intsOut (1, 1) (fun _ _ => (9 : ℤ)) =
        ReadOut.intsOut (1, 1) (fun _ _ => (7 : ℤ)) := congrArg Prod.fst h
    simp only [ReadOut.intsOut.injEq] at h2
    have h3 := congrFun (congrFun h2.2 0) 0
    norm_num at h3

end TensorezUtil
